import Mathlib

/-
Verification development for the llmbackendsdk repository.

Shallow embedding of:
  * the versioned migration runner `PostgresClient.initializeDatabase`
    together with the schema-version queries (CREATE_VERSION_TABLE_QUERY,
    GET_SCHEMA_VERSION_QUERY, UPDATE_SCHEMA_VERSION_QUERY);
  * the chat reconciliation pass inside `syncChats` (src/api/database.ts,
    lines 68-122), including the JavaScript truthiness semantics of the
    `deletedAt` checks;
  * the SQL row semantics of GET_CHATS_BY_USER_ID_QUERY, UPSERT_CHATS_QUERY,
    DELETE_MESSAGES_BY_CHAT_IDS, ADD_MESSAGE_QUERY and ADD_MESSAGES_QUERY
    over list-of-row models of the `chats` and `messages` tables;
  * the HTTP response handling of src/api/llm.ts (getModels, getCompletion,
    generateImage, streamCompletion).

Timestamps are modelled at epoch-millisecond granularity as integers;
the SQL layer stores and compares them with the same ordering that
`to_timestamp(ms/1000.0)` induces, so the integer comparison is faithful.
-/

set_option maxRecDepth 4000

namespace LlmBackend

/-! ## Migration runner (PostgresClient.initializeDatabase) -/

/-- The durable database state seen by the migration runner:
`versions` models the rows of the `schema_versions` table
(CREATE_VERSION_TABLE_QUERY is an idempotent CREATE IF NOT EXISTS, so the
table is simply always present, the fresh store being the empty list);
`store` is the rest of the database, which the upgrade procedures act on. -/
structure MigState (σ : Type) where
  versions : List Nat
  store : σ
deriving DecidableEq, Repr

/-- An upgrade procedure: an arbitrary schema-mutating computation against the
transaction handle.  `none` models the procedure throwing. -/
def Migration (σ : Type) : Type := σ → Option σ

/-- The `migrations : Map<number, fn>` member of PostgresClient, after all
`registerMigration` calls (Map.set overwrites, so only the final mapping
matters).  `bound` witnesses that the map is finite, as a JavaScript Map is. -/
structure MigrationMap (σ : Type) where
  find : Nat → Option (Migration σ)
  bound : Nat
  le_bound : ∀ v, bound ≤ v → find v = none

/-- GET_SCHEMA_VERSION_QUERY: `SELECT COALESCE(MAX(version), 0) FROM schema_versions`. -/
def getSchemaVersion {σ : Type} (s : MigState σ) : Nat :=
  s.versions.foldr max 0

/-- UPDATE_SCHEMA_VERSION_QUERY: `INSERT INTO schema_versions (version) VALUES ($1)`. -/
def updateSchemaVersion {σ : Type} (v : Nat) (s : MigState σ) : MigState σ :=
  { s with versions := v :: s.versions }

/-- Result of the `while (this.migrations.has(currentVersion))` walk.
`ok` carries the list of from-versions whose procedures ran (in order),
the final `currentVersion`, and the transaction-local state; `err` is a
procedure throwing; `outOfFuel` is unreachable for sufficient fuel. -/
inductive MigOutcome (σ : Type) where
  | ok (trace : List Nat) (finalVersion : Nat) (state : MigState σ)
  | err
  | outOfFuel

/-- The migration while-loop of PostgresClient.initializeDatabase:
while a procedure is registered for `v`, run it, increment `v`, and insert the
new `v` into schema_versions — all against the transaction-local state. -/
def runMigrations {σ : Type} (find : Nat → Option (Migration σ)) :
    Nat → Nat → List Nat → MigState σ → MigOutcome σ
  | fuel, v, trace, s =>
    match find v with
    | none => MigOutcome.ok trace.reverse v s
    | some proc =>
      match fuel with
      | 0 => MigOutcome.outOfFuel
      | fuel' + 1 =>
        match proc s.store with
        | none => MigOutcome.err
        | some store' =>
            runMigrations find fuel' (v + 1) (v :: trace)
              (updateSchemaVersion (v + 1) { s with store := store' })

/-- Number of contiguously registered versions starting at `v`
(the walk length up to the first gap). -/
def contigLen {σ : Type} (find : Nat → Option (Migration σ)) : Nat → Nat → Nat
  | fuel, v =>
    match find v with
    | none => 0
    | some _ =>
      match fuel with
      | 0 => 0
      | fuel' + 1 => contigLen find fuel' (v + 1) + 1

/-- Sequential application of the registered procedures at `v, v+1, ...` to the
schema store, `none` as soon as a procedure is missing or throws. -/
def applySeq {σ : Type} (find : Nat → Option (Migration σ)) :
    Nat → Nat → σ → Option σ
  | 0, _, st => some st
  | n + 1, v, st =>
    match find v with
    | none => none
    | some proc =>
      match proc st with
      | none => none
      | some st' => applySeq find n (v + 1) st'

inductive MigError where
  | migrationFailed
deriving DecidableEq, Repr

/-- PostgresClient.initializeDatabase: BEGIN; ensure version table; read the
current version; walk the registered migrations; COMMIT — and on any thrown
error ROLLBACK and rethrow.  The returned pair is (durable state after the
call, propagated error if any): COMMIT publishes the transaction-local state,
ROLLBACK leaves the durable state exactly as it was. -/
def initializeDatabase {σ : Type} (migs : MigrationMap σ) (s : MigState σ) :
    MigState σ × Option MigError :=
  match runMigrations migs.find migs.bound (getSchemaVersion s) [] s with
  | MigOutcome.ok _ _ s2 => (s2, none)
  | MigOutcome.err => (s, some MigError.migrationFailed)
  | MigOutcome.outOfFuel => (s, some MigError.migrationFailed)

/-! ## Chat reconciler (syncChats in src/api/database.ts) -/

/-- The Chat DTO used by syncChats.  `deletedAt = none` models an
absent/undefined/null tombstone; `some n` a numeric timestamp. -/
structure Chat where
  chatId : String
  userId : String
  title : String
  updatedAt : Int
  deletedAt : Option Int
deriving DecidableEq, Repr

/-- JavaScript truthiness of an optional number: `undefined`, `null` and `0`
are all falsy.  This is the semantics of `if (chat.deletedAt)` and
`if (!dbChat.deletedAt)` in the source. -/
def truthy : Option Int → Bool
  | none => false
  | some n => n != 0

/-- The accumulated outcome of the reconciliation pass: the `chatsToSync`
upsert set, the `chatsToDelete` cascade set, and the `console.error`
diagnostics emitted for ownership violations. -/
structure SyncPlan where
  chatsToSync : List Chat
  chatsToDelete : List String
  diagnostics : List String
deriving DecidableEq, Repr

def emptyPlan : SyncPlan := { chatsToSync := [], chatsToDelete := [], diagnostics := [] }

/-- `new Map(dbChats.map(chat => [chat.chatId, chat]))` followed by `.get`:
for duplicate ids the later list entry wins, as in a JavaScript Map. -/
def dbChatsMapGet (dbChats : List Chat) (id : String) : Option Chat :=
  dbChats.foldl (fun acc c => if c.chatId = id then some c else acc) none

/-- The `console.error` text for an ownership violation (apostrophe-free
rendering of the template literal in src/api/database.ts line 99). -/
def ownershipError (chat : Chat) (userId : String) : String :=
  "Chat " ++ chat.chatId ++ " has userId " ++ chat.userId ++
    " which does not match the provided userId " ++ userId

/-- One iteration of the `chats.forEach` loop of syncChats
(src/api/database.ts lines 96-119), acting on the accumulated plan. -/
def reconcileChat (userId : String) (dbMap : String → Option Chat)
    (acc : SyncPlan) (chat : Chat) : SyncPlan :=
  if chat.userId ≠ userId then
    { acc with diagnostics := acc.diagnostics ++ [ownershipError chat userId] }
  else
    match dbMap chat.chatId with
    | some dbChat =>
      if truthy dbChat.deletedAt = false then
        if truthy chat.deletedAt then
          { acc with chatsToSync := acc.chatsToSync ++ [chat],
                     chatsToDelete := acc.chatsToDelete ++ [chat.chatId] }
        else if chat.updatedAt > dbChat.updatedAt then
          { acc with chatsToSync := acc.chatsToSync ++ [chat] }
        else acc
      else acc
    | none =>
      { acc with chatsToSync := acc.chatsToSync ++ [chat],
                 chatsToDelete := acc.chatsToDelete ++
                   (if truthy chat.deletedAt then [chat.chatId] else []) }

/-- The whole reconciliation pass of syncChats over the fetched server
snapshot `dbChats` and the client batch `chats`. -/
def reconcile (userId : String) (dbChats : List Chat) (chats : List Chat) : SyncPlan :=
  chats.foldl (reconcileChat userId (dbChatsMapGet dbChats)) emptyPlan

/-! ## Row-level SQL semantics (storage/queries.ts, PostgresClient) -/

/-- A row of the `chats` table (id INTEGER PRIMARY KEY, user_id, title,
updated_at NOT NULL, deleted_at NULL; created_at is never read by the
modelled operations and is omitted). -/
structure ChatRow where
  id : Int
  user_id : String
  title : String
  updated_at : Int
  deleted_at : Option Int
deriving DecidableEq, Repr

/-- A row of the `messages` table. -/
structure MsgRow where
  id : Int
  chat_id : Int
  content : String
  role : String
  created_at : Int
  image_url : Option String
  prompt : Option String
deriving DecidableEq, Repr

structure ChatsDb where
  chats : List ChatRow
  messages : List MsgRow
deriving DecidableEq, Repr

inductive SqlError where
  | uniqueViolation
  | onConflictRowTwice
deriving DecidableEq, Repr

/-- The WHERE clause of GET_CHATS_BY_USER_ID_QUERY:
`user_id = $1 AND ($2 IS NULL OR updated_at > to_timestamp($2/1000.0))`. -/
def chatMatches (userId : String) (updatedAfter : Option Int) (c : ChatRow) : Bool :=
  c.user_id == userId &&
    (match updatedAfter with
     | none => true
     | some w => decide (w < c.updated_at))

/-- Insertion step for `ORDER BY updated_at DESC`. -/
def insertDescByUpdated (r : ChatRow) : List ChatRow → List ChatRow
  | [] => [r]
  | x :: xs =>
    if x.updated_at ≤ r.updated_at then r :: x :: xs
    else x :: insertDescByUpdated r xs

/-- `ORDER BY c.updated_at DESC` (ties are in unspecified order in SQL;
insertion sort picks one such order). -/
def orderByUpdatedDesc (l : List ChatRow) : List ChatRow :=
  l.foldr insertDescByUpdated []

/-- GET_CHATS_BY_USER_ID_QUERY evaluated on a table:
filter by user and watermark, order by updated_at DESC, then
`LIMIT $3 OFFSET $4`. -/
def getChatsByUserIdRows (table : List ChatRow) (userId : String)
    (updatedAfter : Option Int) (limit offset : Nat) : List ChatRow :=
  ((orderByUpdatedDesc (table.filter (chatMatches userId updatedAfter))).drop offset).take limit

/-- `updatedAfter || null` in PostgresClient.getChatsByUserId: the falsy
watermark 0 is coerced to SQL NULL. -/
def normalizeWatermark : Option Int → Option Int
  | none => none
  | some w => if w = 0 then none else some w

/-- The server-snapshot fetch performed by syncChats:
`databaseClient.getChatsByUserId(userId, updatedAt)` with the omitted
arguments taking PostgresClient defaults `limit = 20`, `page = 0`
(offset = page * limit = 0). -/
def syncSnapshot (table : List ChatRow) (userId : String)
    (updatedAt : Option Int) : List ChatRow :=
  getChatsByUserIdRows table userId (normalizeWatermark updatedAt) 20 0

/-- One row of UPSERT_CHATS_QUERY:
`INSERT ... ON CONFLICT (id) DO UPDATE SET user_id, title, updated_at,
deleted_at = EXCLUDED...` — every non-key column is overwritten, so a
conflicting row is replaced wholesale. -/
def upsertChatRow (table : List ChatRow) (r : ChatRow) : List ChatRow :=
  if table.any (fun x => x.id == r.id) then
    table.map (fun x => if x.id == r.id then r else x)
  else
    table ++ [r]

/-- PostgresClient.syncChats: in one transaction, bulk-upsert the chats and
bulk-delete the messages whose chat_id is in `toDelete`
(DELETE_MESSAGES_BY_CHAT_IDS: `DELETE FROM messages WHERE chat_id = ANY($1)`).
A duplicate id inside the upsert batch makes ON CONFLICT DO UPDATE affect a
row twice, which Postgres rejects; the transaction then rolls back and the
durable state is unchanged. -/
def dbSyncChats (toSync : List ChatRow) (toDelete : List Int) (db : ChatsDb) :
    ChatsDb × Option SqlError :=
  if toSync.isEmpty && toDelete.isEmpty then (db, none)
  else if (toSync.map (fun c => c.id)).Nodup then
    ({ chats := toSync.foldl upsertChatRow db.chats,
       messages := db.messages.filter (fun m => !(toDelete.contains m.chat_id)) }, none)
  else (db, some SqlError.onConflictRowTwice)

/-- ADD_MESSAGE_QUERY via PostgresClient.addMessage: a plain
`INSERT INTO messages ... VALUES (...)` with **no** ON CONFLICT clause, so an
existing primary key raises a unique violation and no row is written. -/
def addMessage (table : List MsgRow) (m : MsgRow) : List MsgRow × Option SqlError :=
  if table.any (fun x => x.id == m.id) then (table, some SqlError.uniqueViolation)
  else (table ++ [m], none)

/-- ADD_MESSAGES_QUERY via PostgresClient.addMessages: bulk insert with
`ON CONFLICT (id) DO NOTHING` — each row is skipped when its id already
exists, including ids inserted earlier in the same statement. -/
def addMessages (table : List MsgRow) (ms : List MsgRow) : List MsgRow :=
  ms.foldl (fun t m => if t.any (fun x => x.id == m.id) then t else t ++ [m]) table

/-! ## LLM facade (src/api/llm.ts) -/

/-- The `.error` object of a provider error body; `message = none` models the
`message` property being absent (undefined). -/
structure ErrObj where
  message : Option String
deriving DecidableEq, Repr

/-- A parsed JSON response body, restricted to the one property the error
path reads; `error = none` models a body without an `error` property. -/
structure JsonBody where
  error : Option ErrObj
deriving DecidableEq, Repr

/-- A fetch response: `ok` is `response.ok` (2xx);
`jsonBody = none` models `response.json()` rejecting (malformed body). -/
structure FetchResponse where
  ok : Bool
  jsonBody : Option JsonBody
deriving DecidableEq, Repr

inductive JsFailure where
  /-- `response.json()` rejected: the body was not valid JSON. -/
  | parseError
  /-- reading `.message` of `undefined` (no `error` property) throws a TypeError. -/
  | typeErrorUndefined
  /-- `throw new Error(msg)`. -/
  | errorThrown (msg : String)
deriving DecidableEq, Repr

/-- JavaScript template-literal rendering of a possibly-undefined string. -/
def renderJsValue : Option String → String
  | some m => m
  | none => "undefined"

/-- The non-2xx branch shared by getModels, getCompletion and generateImage:
`const errJson = await response.json();
 throw new Error(` + "`HTTP error! status: $\x7berrJson.error.message\x7d`" + `);` -/
def handleNotOk (body : Option JsonBody) : JsFailure :=
  match body with
  | none => JsFailure.parseError
  | some j =>
    match j.error with
    | none => JsFailure.typeErrorUndefined
    | some e => JsFailure.errorThrown ("HTTP error! status: " ++ renderJsValue e.message)

/-- getModels, as a function of the provider response. -/
def getModels (resp : FetchResponse) : Except JsFailure JsonBody :=
  if resp.ok then
    match resp.jsonBody with
    | some j => Except.ok j
    | none => Except.error JsFailure.parseError
  else Except.error (handleNotOk resp.jsonBody)

/-- getCompletion, as a function of the provider response (identical
response handling to getModels in the source). -/
def getCompletion (resp : FetchResponse) : Except JsFailure JsonBody :=
  if resp.ok then
    match resp.jsonBody with
    | some j => Except.ok j
    | none => Except.error JsFailure.parseError
  else Except.error (handleNotOk resp.jsonBody)

/-- generateImage, as a function of the provider response (identical
response handling to getModels in the source). -/
def generateImage (resp : FetchResponse) : Except JsFailure JsonBody :=
  if resp.ok then
    match resp.jsonBody with
    | some j => Except.ok j
    | none => Except.error JsFailure.parseError
  else Except.error (handleNotOk resp.jsonBody)

/-- A streaming fetch response: `body = none` models `res.body` being null;
otherwise the decoded text chunks read from the body reader. -/
structure StreamResponse where
  ok : Bool
  body : Option (List String)
deriving DecidableEq, Repr

/-- streamCompletion: the source checks only `if (!res.body)` and never
inspects `res.ok` or the HTTP status; with a body present it yields every
decoded chunk regardless of status. -/
def streamCompletion (res : StreamResponse) : Except JsFailure (List String) :=
  match res.body with
  | none => Except.error (JsFailure.errorThrown "No streamable response")
  | some chunks => Except.ok chunks

/-! ## Concrete instances used by the witnesses and counterexamples -/

def demoUpProc : Migration Nat := fun st => some (st + 1)

def demoFailProc : Migration Nat := fun _ => none

def demoDoubleProc : Migration Nat := fun st => some (st * 2)

def demoMigsFail : MigrationMap Nat where
  find := fun v =>
    if v = 0 then some demoUpProc
    else if v = 1 then some demoFailProc
    else none
  bound := 2
  le_bound := by
    intro v hv
    have h0 : ¬ v = 0 := by omega
    have h1 : ¬ v = 1 := by omega
    simp [h0, h1]

def demoMigsOk : MigrationMap Nat where
  find := fun v =>
    if v = 0 then some demoUpProc
    else if v = 1 then some demoDoubleProc
    else none
  bound := 2
  le_bound := by
    intro v hv
    have h0 : ¬ v = 0 := by omega
    have h1 : ¬ v = 1 := by omega
    simp [h0, h1]

def demoMigState : MigState Nat := { versions := [], store := 3 }

/-- A live server chat (no tombstone). -/
def demoServerLive : Chat :=
  { chatId := "c1", userId := "u1", title := "t0", updatedAt := 5, deletedAt := none }

/-- A live client chat with the same chatId and the same updatedAt (a tie). -/
def demoClientLive : Chat :=
  { chatId := "c1", userId := "u1", title := "t1", updatedAt := 5, deletedAt := none }

/-- A server chat whose tombstone timestamp is exactly 0 (epoch) — non-null
but falsy in JavaScript. -/
def demoServerZeroTomb : Chat :=
  { chatId := "c1", userId := "u1", title := "t0", updatedAt := 3, deletedAt := some 0 }

/-- A server chat with an ordinary (truthy) tombstone. -/
def demoServerTomb : Chat :=
  { chatId := "c1", userId := "u1", title := "t0", updatedAt := 3, deletedAt := some 9 }

/-- A tombstoned client chat for chatId c1. -/
def demoClientTomb : Chat :=
  { chatId := "c1", userId := "u1", title := "t2", updatedAt := 5, deletedAt := some 7 }

/-- An unrelated live client chat for chatId c2. -/
def demoOtherChat : Chat :=
  { chatId := "c2", userId := "u1", title := "t3", updatedAt := 4, deletedAt := none }

/-- A client chat whose userId does not match the sync target user. -/
def demoMismatchChat : Chat :=
  { chatId := "c9", userId := "intruder", title := "t", updatedAt := 5, deletedAt := none }

/-- A tombstoned client chat unknown to the server. -/
def demoClientTombNew : Chat :=
  { chatId := "c2", userId := "u1", title := "t4", updatedAt := 5, deletedAt := some 6 }

/-- A chats table holding 21 rows of one user, all matching an absent
watermark, with distinct updated_at values 0..20. -/
def demoChatTable : List ChatRow :=
  (List.range 21).map (fun i =>
    { id := Int.ofNat i, user_id := "u", title := "t",
      updated_at := Int.ofNat i, deleted_at := none })

/-- The oldest row of demoChatTable (updated_at = 0). -/
def demoRow0 : ChatRow :=
  { id := 0, user_id := "u", title := "t", updated_at := 0, deleted_at := none }

def demoMsg : MsgRow :=
  { id := 1, chat_id := 1, content := "hi", role := "user", created_at := 10,
    image_url := none, prompt := none }

/-- A different message carrying the same messageId as demoMsg. -/
def demoMsgDup : MsgRow :=
  { id := 1, chat_id := 1, content := "hi again", role := "user", created_at := 11,
    image_url := none, prompt := none }

def demoMsg2 : MsgRow :=
  { id := 2, chat_id := 2, content := "x", role := "user", created_at := 3,
    image_url := none, prompt := none }

def demoChatRow : ChatRow :=
  { id := 1, user_id := "u", title := "t", updated_at := 5, deleted_at := none }

/-- A tombstoned update of demoChatRow. -/
def demoChatRowUpd : ChatRow :=
  { id := 1, user_id := "u", title := "t2", updated_at := 9, deleted_at := some 9 }

def demoDb : ChatsDb := { chats := [demoChatRow], messages := [demoMsg, demoMsg2] }

/-- A well-formed provider error body with error.message present. -/
def demoErrBody : JsonBody := { error := some { message := some "bad key" } }

/-- A 401-style response: not ok, with the well-formed error body. -/
def demoErrResp : FetchResponse := { ok := false, jsonBody := some demoErrBody }

/-- A non-2xx streaming response that still has a readable body. -/
def demoErrStream : StreamResponse := { ok := false, body := some ["oops"] }

/-- A streaming response with no body. -/
def demoNoBodyStream : StreamResponse := { ok := false, body := none }

end LlmBackend

namespace LlmBackend

/-! ## Migration runner lemmas -/

theorem getSchemaVersion_update {σ : Type} (v : Nat) (s : MigState σ) :
    getSchemaVersion (updateSchemaVersion v s) = max v (getSchemaVersion s) := rfl

theorem runMigrations_err {σ : Type} (find : Nat → Option (Migration σ)) :
    ∀ (n fuel v : Nat) (tr : List Nat) (s : MigState σ) (st : σ) (p : Migration σ),
      (∀ k, find k ≠ none → k < v + fuel) →
      applySeq find n v s.store = some st →
      find (v + n) = some p →
      p st = none →
      runMigrations find fuel v tr s = MigOutcome.err := by
  intro n
  induction n with
  | zero =>
    intro fuel v tr s st p hsuff happ hfind hp
    have hst : st = s.store := by
      have := happ.symm
      simpa [applySeq] using this
    have hfv : find v = some p := by simpa using hfind
    have hfuel : 0 < fuel := by
      have := hsuff v (by simp [hfv])
      omega
    obtain ⟨fuel', rfl⟩ : ∃ f, fuel = f + 1 := ⟨fuel - 1, by omega⟩
    rw [runMigrations, hfv]
    simp [hst ▸ hp]
  | succ n ih =>
    intro fuel v tr s st p hsuff happ hfind hp
    rw [applySeq] at happ
    cases hfv : find v with
    | none => rw [hfv] at happ; simp at happ
    | some q =>
      rw [hfv] at happ
      simp only [] at happ
      cases hq : q s.store with
      | none => rw [hq] at happ; simp at happ
      | some st1 =>
        rw [hq] at happ
        simp only [] at happ
        have hfuel : 0 < fuel := by
          have := hsuff v (by simp [hfv])
          omega
        obtain ⟨fuel', rfl⟩ : ∃ f, fuel = f + 1 := ⟨fuel - 1, by omega⟩
        rw [runMigrations, hfv]
        simp only [hq]
        exact ih fuel' (v + 1) (v :: tr) _ st p
          (by intro k hk; have := hsuff k hk; omega)
          (by simpa [updateSchemaVersion] using happ)
          (by rw [show v + 1 + n = v + (n + 1) from by omega]; exact hfind)
          hp

theorem contigLen_gap {σ : Type} (find : Nat → Option (Migration σ)) :
    ∀ (fuel v : Nat), (∀ k, find k ≠ none → k < v + fuel) →
      find (v + contigLen find fuel v) = none := by
  intro fuel
  induction fuel with
  | zero =>
    intro v hsuff
    cases hfv : find v with
    | none => rw [contigLen, hfv]; simpa using hfv
    | some q =>
      have := hsuff v (by simp [hfv])
      omega
  | succ f ih =>
    intro v hsuff
    cases hfv : find v with
    | none => rw [contigLen, hfv]; simpa using hfv
    | some q =>
      rw [contigLen, hfv]
      simp only []
      rw [show v + (contigLen find f (v + 1) + 1) = (v + 1) + contigLen find f (v + 1) from by omega]
      exact ih (v + 1) (by intro k hk; have := hsuff k hk; omega)

theorem runMigrations_ok {σ : Type} (find : Nat → Option (Migration σ)) :
    ∀ (fuel v : Nat) (tr : List Nat) (s : MigState σ) (st : σ),
      (∀ k, find k ≠ none → k < v + fuel) →
      applySeq find (contigLen find fuel v) v s.store = some st →
      getSchemaVersion s = v →
      ∃ s2 : MigState σ,
        runMigrations find fuel v tr s
          = MigOutcome.ok (tr.reverse ++ List.range' v (contigLen find fuel v))
              (v + contigLen find fuel v) s2
        ∧ s2.store = st ∧ getSchemaVersion s2 = v + contigLen find fuel v := by
  intro fuel
  induction fuel with
  | zero =>
    intro v tr s st hsuff happ hver
    have hfv : find v = none := by
      by_contra h
      have := hsuff v h
      omega
    have hcl : contigLen find 0 v = 0 := by rw [contigLen, hfv]
    rw [hcl] at happ
    have hst : st = s.store := by
      have := happ.symm
      simpa [applySeq] using this
    refine ⟨s, ?_, hst.symm, by simpa [hcl] using hver⟩
    rw [runMigrations, hfv, hcl]
    simp
  | succ f ih =>
    intro v tr s st hsuff happ hver
    cases hfv : find v with
    | none =>
      have hcl : contigLen find (f + 1) v = 0 := by rw [contigLen, hfv]
      rw [hcl] at happ
      have hst : st = s.store := by
        have := happ.symm
        simpa [applySeq] using this
      refine ⟨s, ?_, hst.symm, by simpa [hcl] using hver⟩
      rw [runMigrations, hfv, hcl]
      simp
    | some q =>
      have hcl : contigLen find (f + 1) v = contigLen find f (v + 1) + 1 := by
        rw [contigLen, hfv]
      rw [hcl, applySeq, hfv] at happ
      simp only [] at happ
      cases hq : q s.store with
      | none => rw [hq] at happ; simp at happ
      | some st1 =>
        rw [hq] at happ
        simp only [] at happ
        have hver1 : getSchemaVersion (updateSchemaVersion (v + 1) { s with store := st1 }) = v + 1 := by
          rw [getSchemaVersion_update]
          have : getSchemaVersion { s with store := st1 } = getSchemaVersion s := rfl
          rw [this, hver]
          omega
        obtain ⟨s2, hrun, hst2, hver2⟩ :=
          ih (v + 1) (v :: tr) (updateSchemaVersion (v + 1) { s with store := st1 }) st
            (by intro k hk; have := hsuff k hk; omega)
            (by simpa [updateSchemaVersion] using happ)
            hver1
        refine ⟨s2, ?_, hst2, by rw [hcl]; omega⟩
        rw [runMigrations, hfv]
        simp only [hq]
        rw [hrun, hcl]
        have htr : (v :: tr).reverse ++ List.range' (v + 1) (contigLen find f (v + 1))
            = tr.reverse ++ List.range' v (contigLen find f (v + 1) + 1) := by
          rw [List.reverse_cons, List.range'_succ]
          simp
        rw [htr]
        have hv : v + 1 + contigLen find f (v + 1) = v + (contigLen find f (v + 1) + 1) := by omega
        rw [hv]

/-- C1: if any registered upgrade procedure throws during initializeDatabase
(after `n` procedures already executed successfully within the invocation),
the whole run is rolled back atomically — the durable state, including the
persisted schema version and all schema state, is exactly the pre-call state —
and the failure is propagated to the caller, not swallowed. -/
theorem migration_rollback_on_failure {σ : Type} (migs : MigrationMap σ)
    (s : MigState σ) (n : Nat) (st : σ) (p : Migration σ)
    (happ : applySeq migs.find n (getSchemaVersion s) s.store = some st)
    (hfind : migs.find (getSchemaVersion s + n) = some p)
    (hp : p st = none) :
    initializeDatabase migs s = (s, some MigError.migrationFailed) := by
  have hsuff : ∀ k, migs.find k ≠ none → k < getSchemaVersion s + migs.bound := by
    intro k hk
    by_contra h
    exact hk (migs.le_bound k (by omega))
  have herr := runMigrations_err migs.find n migs.bound (getSchemaVersion s) [] s st p
    hsuff happ hfind hp
  rw [initializeDatabase, herr]

theorem migration_rollback_on_failure_witness :
    demoMigsFail.find (getSchemaVersion demoMigState + 1) = some demoFailProc
    ∧ applySeq demoMigsFail.find 1 (getSchemaVersion demoMigState) demoMigState.store = some 4
    ∧ demoFailProc 4 = none
    ∧ initializeDatabase demoMigsFail demoMigState = (demoMigState, some MigError.migrationFailed) := by
  refine ⟨rfl, rfl, rfl, ?_⟩
  exact migration_rollback_on_failure demoMigsFail demoMigState 1 4 demoFailProc rfl rfl rfl

/-- C2: initializeDatabase applies the registered procedures strictly in
increasing version order starting at the recorded version (the trace is
`List.range'` of that version), halts silently — with no error — at the
first unregistered version (`contigLen` counts the contiguously registered
versions, and the halt point is a gap), and the recorded schema version of
the committed state is the initial version plus the number applied. -/
theorem migration_walk_contiguous {σ : Type} (migs : MigrationMap σ)
    (s : MigState σ) (st : σ)
    (happ : applySeq migs.find (contigLen migs.find migs.bound (getSchemaVersion s))
              (getSchemaVersion s) s.store = some st) :
    (initializeDatabase migs s).2 = none
    ∧ runMigrations migs.find migs.bound (getSchemaVersion s) [] s
        = MigOutcome.ok
            (List.range' (getSchemaVersion s)
              (contigLen migs.find migs.bound (getSchemaVersion s)))
            (getSchemaVersion s + contigLen migs.find migs.bound (getSchemaVersion s))
            (initializeDatabase migs s).1
    ∧ getSchemaVersion (initializeDatabase migs s).1
        = getSchemaVersion s + contigLen migs.find migs.bound (getSchemaVersion s)
    ∧ (initializeDatabase migs s).1.store = st
    ∧ migs.find (getSchemaVersion s + contigLen migs.find migs.bound (getSchemaVersion s)) = none := by
  have hsuff : ∀ k, migs.find k ≠ none → k < getSchemaVersion s + migs.bound := by
    intro k hk
    by_contra h
    exact hk (migs.le_bound k (by omega))
  obtain ⟨s2, hrun, hst2, hver2⟩ :=
    runMigrations_ok migs.find migs.bound (getSchemaVersion s) [] s st hsuff happ rfl
  have hinit : initializeDatabase migs s = (s2, none) := by
    rw [initializeDatabase, hrun]
  rw [hinit]
  refine ⟨rfl, ?_, hver2, hst2, contigLen_gap migs.find migs.bound (getSchemaVersion s) hsuff⟩
  simpa using hrun

/-! ## Reconciler lemmas -/

theorem reconcileChat_empty_cases (u : String) (m : String → Option Chat) (c : Chat) :
    ((reconcileChat u m emptyPlan c).chatsToSync = []
      ∧ (reconcileChat u m emptyPlan c).chatsToDelete = [])
    ∨ ((reconcileChat u m emptyPlan c).chatsToSync = [c]
      ∧ (reconcileChat u m emptyPlan c).chatsToDelete = [])
    ∨ ((reconcileChat u m emptyPlan c).chatsToSync = [c]
      ∧ (reconcileChat u m emptyPlan c).chatsToDelete = [c.chatId]) := by
  by_cases h1 : c.userId ≠ u
  · left; simp [reconcileChat, h1, emptyPlan]
  · cases hm : m c.chatId with
    | some dbChat =>
      by_cases h2 : truthy dbChat.deletedAt = false
      · by_cases h3 : truthy c.deletedAt = true
        · right; right; simp [reconcileChat, h1, hm, h2, h3, emptyPlan]
        · by_cases h4 : c.updatedAt > dbChat.updatedAt
          · right; left; simp [reconcileChat, h1, hm, h2, h3, h4, emptyPlan]
          · left; simp [reconcileChat, h1, hm, h2, h3, h4, emptyPlan]
      · left; simp [reconcileChat, h1, hm, h2, emptyPlan]
    | none =>
      by_cases h3 : truthy c.deletedAt = true
      · right; right; simp [reconcileChat, h1, hm, h3, emptyPlan]
      · right; left; simp [reconcileChat, h1, hm, h3, emptyPlan]

theorem reconcileChat_append (u : String) (m : String → Option Chat)
    (acc : SyncPlan) (c : Chat) :
    (reconcileChat u m acc c).chatsToSync
        = acc.chatsToSync ++ (reconcileChat u m emptyPlan c).chatsToSync
    ∧ (reconcileChat u m acc c).chatsToDelete
        = acc.chatsToDelete ++ (reconcileChat u m emptyPlan c).chatsToDelete
    ∧ (reconcileChat u m acc c).diagnostics
        = acc.diagnostics ++ (reconcileChat u m emptyPlan c).diagnostics := by
  by_cases h1 : c.userId ≠ u
  · simp [reconcileChat, h1, emptyPlan]
  · cases hm : m c.chatId with
    | some dbChat =>
      by_cases h2 : truthy dbChat.deletedAt = false
      · by_cases h3 : truthy c.deletedAt = true
        · simp [reconcileChat, h1, hm, h2, h3, emptyPlan]
        · by_cases h4 : c.updatedAt > dbChat.updatedAt
          · simp [reconcileChat, h1, hm, h2, h3, h4, emptyPlan]
          · simp [reconcileChat, h1, hm, h2, h3, h4, emptyPlan]
      · simp [reconcileChat, h1, hm, h2, emptyPlan]
    | none =>
      by_cases h3 : truthy c.deletedAt = true
      · simp [reconcileChat, h1, hm, h3, emptyPlan]
      · simp [reconcileChat, h1, hm, h3, emptyPlan]

theorem foldl_reconcile_append (u : String) (m : String → Option Chat) :
    ∀ (l : List Chat) (acc : SyncPlan),
      (List.foldl (reconcileChat u m) acc l).chatsToSync
          = acc.chatsToSync ++ (List.foldl (reconcileChat u m) emptyPlan l).chatsToSync
      ∧ (List.foldl (reconcileChat u m) acc l).chatsToDelete
          = acc.chatsToDelete ++ (List.foldl (reconcileChat u m) emptyPlan l).chatsToDelete := by
  intro l
  induction l with
  | nil => intro acc; simp [emptyPlan]
  | cons c l ih =>
    intro acc
    simp only [List.foldl_cons]
    obtain ⟨hs, hd, _⟩ := reconcileChat_append u m acc c
    obtain ⟨ihs, ihd⟩ := ih (reconcileChat u m acc c)
    obtain ⟨ihs0, ihd0⟩ := ih (reconcileChat u m emptyPlan c)
    constructor
    · rw [ihs, ihs0, hs, List.append_assoc]
    · rw [ihd, ihd0, hd, List.append_assoc]

theorem reconcileChat_tombstoned_step (u : String) (m : String → Option Chat)
    (acc : SyncPlan) (c : Chat) (dbChat : Chat)
    (hm : m c.chatId = some dbChat) (ht : truthy dbChat.deletedAt = true) :
    (reconcileChat u m acc c).chatsToSync = acc.chatsToSync
    ∧ (reconcileChat u m acc c).chatsToDelete = acc.chatsToDelete := by
  by_cases h1 : c.userId ≠ u
  · simp [reconcileChat, h1]
  · simp [reconcileChat, h1, hm, ht]

theorem reconcileChat_mismatch_step (u : String) (m : String → Option Chat)
    (acc : SyncPlan) (c : Chat) (hu : c.userId ≠ u) :
    reconcileChat u m acc c
      = { acc with diagnostics := acc.diagnostics ++ [ownershipError c u] } := by
  simp [reconcileChat, hu]

theorem mem_sync_of_live (u : String) (dbChats : List Chat) (chat dbChat : Chat)
    (hu : chat.userId = u)
    (hm : dbChatsMapGet dbChats chat.chatId = some dbChat)
    (hdb : dbChat.deletedAt = none) (hcl : chat.deletedAt = none) :
    ∀ (l : List Chat) (acc : SyncPlan),
      chat ∈ (List.foldl (reconcileChat u (dbChatsMapGet dbChats)) acc l).chatsToSync
        ↔ chat ∈ acc.chatsToSync ∨ (chat ∈ l ∧ chat.updatedAt > dbChat.updatedAt) := by
  intro l
  induction l with
  | nil => intro acc; simp
  | cons c l ih =>
    intro acc
    simp only [List.foldl_cons]
    rw [ih (reconcileChat u (dbChatsMapGet dbChats) acc c)]
    by_cases hc : c = chat
    · subst hc
      have hstep : (reconcileChat u (dbChatsMapGet dbChats) acc c).chatsToSync
          = acc.chatsToSync ++ (if c.updatedAt > dbChat.updatedAt then [c] else []) := by
        by_cases hgt : c.updatedAt > dbChat.updatedAt
        · simp [reconcileChat, hu, hm, hdb, hcl, truthy, hgt]
        · simp [reconcileChat, hu, hm, hdb, hcl, truthy, hgt]
      by_cases hgt : c.updatedAt > dbChat.updatedAt
      · simp [hstep, hgt]
      · simp [hstep, hgt]
    · have hstep : chat ∈ (reconcileChat u (dbChatsMapGet dbChats) acc c).chatsToSync
          ↔ chat ∈ acc.chatsToSync := by
        rw [(reconcileChat_append u (dbChatsMapGet dbChats) acc c).1]
        rcases reconcileChat_empty_cases u (dbChatsMapGet dbChats) c with ⟨h, _⟩ | ⟨h, _⟩ | ⟨h, _⟩ <;>
          simp [h, Ne.symm hc]
      rw [hstep]
      have : chat ∈ c :: l ↔ chat ∈ l := by
        simp [List.mem_cons, Ne.symm hc]
      rw [this]

theorem reconcile_tombstone_invariant (u : String) (dbChats : List Chat)
    (cid : String) (dbChat : Chat)
    (hm : dbChatsMapGet dbChats cid = some dbChat)
    (ht : truthy dbChat.deletedAt = true) :
    ∀ (l : List Chat) (acc : SyncPlan),
      (∀ x ∈ acc.chatsToSync, x.chatId ≠ cid) → cid ∉ acc.chatsToDelete →
      (∀ x ∈ (List.foldl (reconcileChat u (dbChatsMapGet dbChats)) acc l).chatsToSync,
          x.chatId ≠ cid)
      ∧ cid ∉ (List.foldl (reconcileChat u (dbChatsMapGet dbChats)) acc l).chatsToDelete := by
  intro l
  induction l with
  | nil => intro acc h1 h2; exact ⟨h1, h2⟩
  | cons c l ih =>
    intro acc h1 h2
    simp only [List.foldl_cons]
    apply ih
    · by_cases hc : c.chatId = cid
      · have hstep := reconcileChat_tombstoned_step u (dbChatsMapGet dbChats) acc c dbChat
          (by rw [hc]; exact hm) ht
        rw [hstep.1]
        exact h1
      · intro x hx
        rw [(reconcileChat_append u (dbChatsMapGet dbChats) acc c).1] at hx
        rcases List.mem_append.1 hx with hxa | hxe
        · exact h1 x hxa
        · rcases reconcileChat_empty_cases u (dbChatsMapGet dbChats) c with ⟨h, _⟩ | ⟨h, _⟩ | ⟨h, _⟩ <;>
            rw [h] at hxe <;> simp at hxe
          · rw [hxe]; exact hc
          · rw [hxe]; exact hc
    · by_cases hc : c.chatId = cid
      · have hstep := reconcileChat_tombstoned_step u (dbChatsMapGet dbChats) acc c dbChat
          (by rw [hc]; exact hm) ht
        rw [hstep.2]
        exact h2
      · intro hd
        rw [(reconcileChat_append u (dbChatsMapGet dbChats) acc c).2.1] at hd
        rcases List.mem_append.1 hd with hda | hde
        · exact h2 hda
        · rcases reconcileChat_empty_cases u (dbChatsMapGet dbChats) c with ⟨_, h⟩ | ⟨_, h⟩ | ⟨_, h⟩ <;>
            rw [h] at hde <;> simp at hde
          exact hc hde.symm

theorem reconcile_sync_userId (u : String) (m : String → Option Chat) :
    ∀ (l : List Chat) (acc : SyncPlan),
      (∀ x ∈ acc.chatsToSync, x.userId = u) →
      ∀ x ∈ (List.foldl (reconcileChat u m) acc l).chatsToSync, x.userId = u := by
  intro l
  induction l with
  | nil => intro acc h; exact h
  | cons c l ih =>
    intro acc h
    simp only [List.foldl_cons]
    apply ih
    intro x hx
    by_cases h1 : c.userId ≠ u
    · rw [reconcileChat_mismatch_step u m acc c h1] at hx
      exact h x hx
    · rw [(reconcileChat_append u m acc c).1] at hx
      rcases List.mem_append.1 hx with hxa | hxe
      · exact h x hxa
      · rcases reconcileChat_empty_cases u m c with ⟨hs, _⟩ | ⟨hs, _⟩ | ⟨hs, _⟩ <;>
          rw [hs] at hxe <;> simp at hxe
        · rw [hxe]; exact not_not.1 h1
        · rw [hxe]; exact not_not.1 h1

theorem reconcile_filter_mismatch (u : String) (dbChats : List Chat) :
    ∀ (l : List Chat),
      (reconcile u dbChats l).chatsToSync
        = (reconcile u dbChats (l.filter (fun ch => ch.userId == u))).chatsToSync
      ∧ (reconcile u dbChats l).chatsToDelete
        = (reconcile u dbChats (l.filter (fun ch => ch.userId == u))).chatsToDelete := by
  intro l
  induction l with
  | nil => simp
  | cons c l ih =>
    by_cases hcu : c.userId = u
    · have hf : (c :: l).filter (fun ch => ch.userId == u)
          = c :: l.filter (fun ch => ch.userId == u) := by
        simp [List.filter_cons, hcu]
      rw [hf]
      unfold reconcile
      simp only [List.foldl_cons]
      obtain ⟨hsl, hdl⟩ := foldl_reconcile_append u (dbChatsMapGet dbChats) l
        (reconcileChat u (dbChatsMapGet dbChats) emptyPlan c)
      obtain ⟨hsf, hdf⟩ := foldl_reconcile_append u (dbChatsMapGet dbChats)
        (l.filter (fun ch => ch.userId == u))
        (reconcileChat u (dbChatsMapGet dbChats) emptyPlan c)
      rw [hsl, hsf, hdl, hdf]
      unfold reconcile at ih
      rw [ih.1, ih.2]
      exact ⟨rfl, rfl⟩
    · have hf : (c :: l).filter (fun ch => ch.userId == u)
          = l.filter (fun ch => ch.userId == u) := by
        simp [List.filter_cons, hcu]
      rw [hf]
      unfold reconcile
      simp only [List.foldl_cons]
      rw [reconcileChat_mismatch_step u (dbChatsMapGet dbChats) emptyPlan c hcu]
      obtain ⟨hsl, hdl⟩ := foldl_reconcile_append u (dbChatsMapGet dbChats) l
        { emptyPlan with diagnostics := emptyPlan.diagnostics ++ [ownershipError c u] }
      rw [hsl, hdl]
      unfold reconcile at ih
      rw [ih.1, ih.2]
      exact ⟨by simp [emptyPlan], by simp [emptyPlan]⟩

theorem reconcileChat_delete_implies_sync (u : String) (m : String → Option Chat) (c : Chat) :
    (reconcileChat u m emptyPlan c).chatsToDelete = []
    ∨ ((reconcileChat u m emptyPlan c).chatsToDelete = [c.chatId]
        ∧ (reconcileChat u m emptyPlan c).chatsToSync = [c]) := by
  rcases reconcileChat_empty_cases u m c with ⟨_, hd⟩ | ⟨_, hd⟩ | ⟨hs, hd⟩
  · left; exact hd
  · left; exact hd
  · right; exact ⟨hd, hs⟩

theorem reconcile_delete_invariant (u : String) (m : String → Option Chat) :
    ∀ (l : List Chat) (acc : SyncPlan),
      (∀ id ∈ acc.chatsToDelete, id ∈ acc.chatsToSync.map (fun ch => ch.chatId)) →
      ∀ id ∈ (List.foldl (reconcileChat u m) acc l).chatsToDelete,
        id ∈ (List.foldl (reconcileChat u m) acc l).chatsToSync.map (fun ch => ch.chatId) := by
  intro l
  induction l with
  | nil => intro acc h; exact h
  | cons c l ih =>
    intro acc h
    simp only [List.foldl_cons]
    apply ih
    intro id hid
    rw [(reconcileChat_append u m acc c).2.1] at hid
    rw [(reconcileChat_append u m acc c).1]
    rcases List.mem_append.1 hid with hida | hide
    · have := h id hida
      simp only [List.map_append, List.mem_append]
      exact Or.inl this
    · rcases reconcileChat_delete_implies_sync u m c with hd | ⟨hd, hs⟩
      · rw [hd] at hide; simp at hide
      · rw [hd] at hide
        simp at hide
        rw [hs, hide]
        simp

end LlmBackend

namespace LlmBackend

/-- C3: for a client chat whose chatId exists in the server snapshot with
neither record tombstoned (both deletedAt null), processing that record adds
nothing to the delete-cascade set, and adds the chat to the upsert set
exactly when the client updatedAt is strictly greater than the server
updatedAt — on a tie the record is dropped; consequently the chat is in the
final upsert set iff its timestamp is strictly greater. -/
theorem sync_last_writer_wins_tie (u : String) (dbChats chats : List Chat)
    (chat dbChat : Chat) (acc : SyncPlan)
    (hu : chat.userId = u)
    (hm : dbChatsMapGet dbChats chat.chatId = some dbChat)
    (hdb : dbChat.deletedAt = none) (hcl : chat.deletedAt = none) :
    (reconcileChat u (dbChatsMapGet dbChats) acc chat).chatsToDelete = acc.chatsToDelete
    ∧ (reconcileChat u (dbChatsMapGet dbChats) acc chat).chatsToSync
        = acc.chatsToSync ++ (if chat.updatedAt > dbChat.updatedAt then [chat] else [])
    ∧ (chat ∈ chats →
        (chat ∈ (reconcile u dbChats chats).chatsToSync
          ↔ chat.updatedAt > dbChat.updatedAt)) := by
  refine ⟨?_, ?_, ?_⟩
  · by_cases hgt : chat.updatedAt > dbChat.updatedAt
    · simp [reconcileChat, hu, hm, hdb, hcl, truthy, hgt]
    · simp [reconcileChat, hu, hm, hdb, hcl, truthy, hgt]
  · by_cases hgt : chat.updatedAt > dbChat.updatedAt
    · simp [reconcileChat, hu, hm, hdb, hcl, truthy, hgt]
    · simp [reconcileChat, hu, hm, hdb, hcl, truthy, hgt]
  · intro hmem
    rw [reconcile, mem_sync_of_live u dbChats chat dbChat hu hm hdb hcl chats emptyPlan]
    simp [emptyPlan, hmem]

theorem sync_last_writer_wins_tie_witness :
    demoClientLive.userId = "u1"
    ∧ dbChatsMapGet [demoServerLive] demoClientLive.chatId = some demoServerLive
    ∧ (reconcileChat "u1" (dbChatsMapGet [demoServerLive]) emptyPlan demoClientLive).chatsToDelete
        = emptyPlan.chatsToDelete
    ∧ (reconcileChat "u1" (dbChatsMapGet [demoServerLive]) emptyPlan demoClientLive).chatsToSync
        = emptyPlan.chatsToSync
          ++ (if demoClientLive.updatedAt > demoServerLive.updatedAt then [demoClientLive] else [])
    ∧ (demoClientLive ∈ [demoClientLive] →
        (demoClientLive ∈ (reconcile "u1" [demoServerLive] [demoClientLive]).chatsToSync
          ↔ demoClientLive.updatedAt > demoServerLive.updatedAt)) := by
  have h := sync_last_writer_wins_tie "u1" [demoServerLive] [demoClientLive]
    demoClientLive demoServerLive emptyPlan rfl (by decide) rfl rfl
  exact ⟨rfl, by decide, h.1, h.2.1, h.2.2⟩

/-- C4 counterexample: the claim fails as stated.  A server chat whose
deletedAt is non-null but exactly 0 is falsy in JavaScript, so
`if (!dbChat.deletedAt)` treats it as live: a tombstoned client record for
the same chatId is then placed in both the upsert set and the delete-cascade
set, overwriting the server tombstone. -/
theorem server_zero_tombstone_not_terminal :
    demoServerZeroTomb.deletedAt = some 0
    ∧ dbChatsMapGet [demoServerZeroTomb] demoClientTomb.chatId = some demoServerZeroTomb
    ∧ demoClientTomb ∈ (reconcile "u1" [demoServerZeroTomb] [demoClientTomb]).chatsToSync
    ∧ demoClientTomb.chatId ∈ (reconcile "u1" [demoServerZeroTomb] [demoClientTomb]).chatsToDelete := by
  decide

/-- C4 amended: for every client chat in a syncChats call whose chatId maps
in the server snapshot to a record carrying a truthy (non-null and non-zero)
deletedAt, the record is placed in neither the upsert set nor the
delete-cascade set, regardless of the client record's updatedAt or tombstone
state — deletion is terminal for truthy tombstones. -/
theorem tombstone_terminal_truthy (u : String) (dbChats chats : List Chat)
    (cid : String) (dbChat x : Chat)
    (hm : dbChatsMapGet dbChats cid = some dbChat)
    (ht : truthy dbChat.deletedAt = true) :
    (x ∈ (reconcile u dbChats chats).chatsToSync → x.chatId ≠ cid)
    ∧ cid ∉ (reconcile u dbChats chats).chatsToDelete := by
  have h := reconcile_tombstone_invariant u dbChats cid dbChat hm ht chats emptyPlan
    (by simp [emptyPlan]) (by simp [emptyPlan])
  exact ⟨fun hx => h.1 x hx, h.2⟩

theorem tombstone_terminal_truthy_witness :
    truthy demoServerTomb.deletedAt = true
    ∧ dbChatsMapGet [demoServerTomb] "c1" = some demoServerTomb
    ∧ (demoOtherChat ∈ (reconcile "u1" [demoServerTomb] [demoClientTomb, demoOtherChat]).chatsToSync
        → demoOtherChat.chatId ≠ "c1")
    ∧ "c1" ∉ (reconcile "u1" [demoServerTomb] [demoClientTomb, demoOtherChat]).chatsToDelete := by
  have h := tombstone_terminal_truthy "u1" [demoServerTomb] [demoClientTomb, demoOtherChat]
    "c1" demoServerTomb demoOtherChat (by decide) rfl
  exact ⟨rfl, by decide, h.1, h.2⟩

/-- C8: a client chat whose userId differs from the target userId is rejected
per-record: every chat in the upsert set carries the target userId, the
mismatching record only appends a diagnostic (it changes neither set and is
not thrown), and the whole batch result equals the result of processing the
batch with the mismatching records filtered out — the batch is not aborted. -/
theorem sync_ownership_enforced (u : String) (dbChats chats : List Chat)
    (x c : Chat) (acc : SyncPlan) :
    (x ∈ (reconcile u dbChats chats).chatsToSync → x.userId = u)
    ∧ (c.userId ≠ u →
        reconcileChat u (dbChatsMapGet dbChats) acc c
          = { acc with diagnostics := acc.diagnostics ++ [ownershipError c u] })
    ∧ (reconcile u dbChats chats).chatsToSync
        = (reconcile u dbChats (chats.filter (fun ch => ch.userId == u))).chatsToSync
    ∧ (reconcile u dbChats chats).chatsToDelete
        = (reconcile u dbChats (chats.filter (fun ch => ch.userId == u))).chatsToDelete := by
  refine ⟨?_, fun h => reconcileChat_mismatch_step u (dbChatsMapGet dbChats) acc c h,
    (reconcile_filter_mismatch u dbChats chats).1,
    (reconcile_filter_mismatch u dbChats chats).2⟩
  intro hx
  exact reconcile_sync_userId u (dbChatsMapGet dbChats) chats emptyPlan
    (by simp [emptyPlan]) x hx

theorem sync_ownership_enforced_witness :
    (demoOtherChat ∈ (reconcile "u1" [] [demoMismatchChat, demoOtherChat]).chatsToSync
      → demoOtherChat.userId = "u1")
    ∧ (demoMismatchChat.userId ≠ "u1" →
        reconcileChat "u1" (dbChatsMapGet []) emptyPlan demoMismatchChat
          = { emptyPlan with
                diagnostics := emptyPlan.diagnostics ++ [ownershipError demoMismatchChat "u1"] })
    ∧ (reconcile "u1" [] [demoMismatchChat, demoOtherChat]).chatsToSync
        = (reconcile "u1" []
            ([demoMismatchChat, demoOtherChat].filter (fun ch => ch.userId == "u1"))).chatsToSync
    ∧ (reconcile "u1" [] [demoMismatchChat, demoOtherChat]).chatsToDelete
        = (reconcile "u1" []
            ([demoMismatchChat, demoOtherChat].filter (fun ch => ch.userId == "u1"))).chatsToDelete :=
  sync_ownership_enforced "u1" [] [demoMismatchChat, demoOtherChat]
    demoOtherChat demoMismatchChat emptyPlan

/-- C9: every chatId placed in the delete-cascade set of a syncChats call
also has its chat record placed in the upsert set of the same call (its id
appears among the upserted chatIds), so the cascading message deletion is
always accompanied by the corresponding chat upsert in the same transaction. -/
theorem delete_set_accompanied_by_upsert (u : String) (dbChats chats : List Chat)
    (id : String)
    (hid : id ∈ (reconcile u dbChats chats).chatsToDelete) :
    id ∈ (reconcile u dbChats chats).chatsToSync.map (fun ch => ch.chatId) :=
  reconcile_delete_invariant u (dbChatsMapGet dbChats) chats emptyPlan
    (by simp [emptyPlan]) id hid

theorem delete_set_accompanied_by_upsert_witness :
    "c2" ∈ (reconcile "u1" [] [demoClientTombNew]).chatsToDelete
    ∧ "c2" ∈ (reconcile "u1" [] [demoClientTombNew]).chatsToSync.map (fun ch => ch.chatId) :=
  ⟨by decide, delete_set_accompanied_by_upsert "u1" [] [demoClientTombNew] "c2" (by decide)⟩

theorem migration_walk_contiguous_witness :
    applySeq demoMigsOk.find
        (contigLen demoMigsOk.find demoMigsOk.bound (getSchemaVersion demoMigState))
        (getSchemaVersion demoMigState) demoMigState.store = some 8
    ∧ (initializeDatabase demoMigsOk demoMigState).2 = none
    ∧ getSchemaVersion (initializeDatabase demoMigsOk demoMigState).1 = 2
    ∧ (initializeDatabase demoMigsOk demoMigState).1.store = 8 := by
  have h := migration_walk_contiguous demoMigsOk demoMigState 8 rfl
  exact ⟨rfl, h.1, h.2.2.1, h.2.2.2.1⟩

/-! ## Snapshot, message and HTTP theorems -/

/-- C5 is violated by the code: the snapshot that syncChats reconciles
against is fetched with `getChatsByUserId(userId, updatedAt)`, leaving the
PostgresClient defaults `limit = 20`, `page = 0`, so GET_CHATS_BY_USER_ID
returns only the newest 20 rows.  On a table with 21 matching chats the
snapshot has length 20 and misses a matching chat (the oldest one), although
every row matches the user and the absent watermark. -/
theorem sync_snapshot_truncated_at_default_limit :
    demoChatTable.length = 21
    ∧ demoChatTable.filter (chatMatches "u" none) = demoChatTable
    ∧ (syncSnapshot demoChatTable "u" none).length = 20
    ∧ demoRow0 ∈ demoChatTable
    ∧ demoRow0 ∉ syncSnapshot demoChatTable "u" none := by
  decide

/-- C6 counterexample: the claim fails as stated.  ADD_MESSAGE_QUERY (used by
addMessage singly) is a plain INSERT with no ON CONFLICT clause, so inserting
a message whose messageId already exists raises a unique-key violation
instead of being a silent no-op. -/
theorem addMessage_duplicate_errors :
    demoMsgDup.id = demoMsg.id
    ∧ addMessage [demoMsg] demoMsgDup = ([demoMsg], some SqlError.uniqueViolation) := by
  decide

theorem addMessages_single_fresh (t : List MsgRow) (m : MsgRow)
    (h : t.any (fun x => x.id == m.id) = false) :
    addMessages t [m] = t ++ [m] := by
  unfold addMessages
  simp only [List.foldl_cons, List.foldl_nil, h]
  simp

theorem addMessages_single_dup (t : List MsgRow) (m : MsgRow)
    (h : t.any (fun x => x.id == m.id) = true) :
    addMessages t [m] = t := by
  unfold addMessages
  simp only [List.foldl_cons, List.foldl_nil, h]
  simp

/-- C6 amended: bulk insertion via addMessages is idempotent — a duplicated
messageId, within one batch or across calls, is skipped by ON CONFLICT DO
NOTHING, leaving exactly one row for that id and making double insertion
equal to single insertion; addMessage singly, however, errors with a unique
violation on an existing messageId (and writes nothing). -/
theorem addMessages_bulk_idempotent (t : List MsgRow) (m m2 : MsgRow)
    (hfresh : t.any (fun x => x.id == m.id) = false)
    (hdup : m2.id = m.id) :
    addMessages t [m, m2] = t ++ [m]
    ∧ addMessages (addMessages t [m]) [m2] = t ++ [m]
    ∧ (t ++ [m]).countP (fun x => x.id == m.id) = 1
    ∧ addMessage (t ++ [m]) m2 = (t ++ [m], some SqlError.uniqueViolation) := by
  have hpm : (m.id == m2.id) = true := by rw [hdup]; exact beq_self_eq_true m.id
  have hany : (t ++ [m]).any (fun x => x.id == m2.id) = true := by
    rw [List.any_append]
    simp [hpm]
  have hstep : addMessages t [m, m2] = addMessages (t ++ [m]) [m2] := by
    unfold addMessages
    simp only [List.foldl_cons, List.foldl_nil, hfresh]
    simp
  refine ⟨?_, ?_, ?_, ?_⟩
  · rw [hstep, addMessages_single_dup (t ++ [m]) m2 hany]
  · rw [addMessages_single_fresh t m hfresh, addMessages_single_dup (t ++ [m]) m2 hany]
  · rw [List.countP_append]
    have h0 : t.countP (fun x => x.id == m.id) = 0 := by
      rw [List.countP_eq_zero]
      intro a ha
      simpa using (List.any_eq_false.mp hfresh) a ha
    simp [h0, List.countP_cons]
  · unfold addMessage
    simp only [hany]
    simp

theorem addMessages_bulk_idempotent_witness :
    ([] : List MsgRow).any (fun x => x.id == demoMsg.id) = false
    ∧ demoMsgDup.id = demoMsg.id
    ∧ addMessages [] [demoMsg, demoMsgDup] = [demoMsg]
    ∧ addMessages (addMessages [] [demoMsg]) [demoMsgDup] = [demoMsg]
    ∧ ([demoMsg] : List MsgRow).countP (fun x => x.id == demoMsg.id) = 1
    ∧ addMessage [demoMsg] demoMsgDup = ([demoMsg], some SqlError.uniqueViolation) := by
  have h := addMessages_bulk_idempotent [] demoMsg demoMsgDup rfl rfl
  exact ⟨rfl, rfl, h.1, h.2.1, h.2.2.1, h.2.2.2⟩

/-- C7 counterexample: the claim fails as stated.  streamCompletion never
inspects the HTTP status: a non-2xx response that still has a readable body
is streamed and the call succeeds instead of failing. -/
theorem streamCompletion_ignores_http_status :
    demoErrStream.ok = false
    ∧ streamCompletion demoErrStream = Except.ok ["oops"] :=
  ⟨rfl, rfl⟩

/-- C7 amended: getModels, getCompletion and generateImage fail on every
non-2xx response; a well-formed error body surfaces its error.message in the
thrown description, and a missing or malformed error body is itself a
failure (a JSON parse error, or a TypeError when the error property is
absent).  streamCompletion, however, ignores the HTTP status and fails only
when the response has no body. -/
theorem json_calls_fail_on_non2xx (resp : FetchResponse) (msg : String)
    (sres : StreamResponse) (hok : resp.ok = false) :
    getModels resp = Except.error (handleNotOk resp.jsonBody)
    ∧ getCompletion resp = Except.error (handleNotOk resp.jsonBody)
    ∧ generateImage resp = Except.error (handleNotOk resp.jsonBody)
    ∧ (resp.jsonBody = some { error := some { message := some msg } } →
        getModels resp
          = Except.error (JsFailure.errorThrown ("HTTP error! status: " ++ msg)))
    ∧ handleNotOk none = JsFailure.parseError
    ∧ handleNotOk (some { error := none }) = JsFailure.typeErrorUndefined
    ∧ (sres.body = none →
        streamCompletion sres
          = Except.error (JsFailure.errorThrown "No streamable response")) := by
  refine ⟨?_, ?_, ?_, ?_, rfl, rfl, ?_⟩
  · simp [getModels, hok]
  · simp [getCompletion, hok]
  · simp [generateImage, hok]
  · intro hb
    simp [getModels, hok, hb, handleNotOk, renderJsValue]
  · intro hb
    simp [streamCompletion, hb]

theorem json_calls_fail_on_non2xx_witness :
    demoErrResp.ok = false
    ∧ demoErrResp.jsonBody = some { error := some { message := some "bad key" } }
    ∧ getModels demoErrResp
        = Except.error (JsFailure.errorThrown ("HTTP error! status: " ++ "bad key"))
    ∧ streamCompletion demoNoBodyStream
        = Except.error (JsFailure.errorThrown "No streamable response") := by
  have h := json_calls_fail_on_non2xx demoErrResp "bad key" demoNoBodyStream rfl
  exact ⟨rfl, rfl, h.2.2.2.1 rfl, h.2.2.2.2.2.2 rfl⟩

/-! ## Chat-table frame theorems -/

theorem upsertChatRow_preserves_ids (t : List ChatRow) (c : ChatRow) (i : Int)
    (hi : i ∈ t.map (fun x => x.id)) :
    i ∈ (upsertChatRow t c).map (fun x => x.id) := by
  obtain ⟨x, hx, hxi⟩ := List.mem_map.1 hi
  unfold upsertChatRow
  by_cases h : t.any (fun x => x.id == c.id) = true
  · rw [if_pos h]
    refine List.mem_map.2 ⟨if x.id == c.id then c else x, List.mem_map_of_mem _ hx, ?_⟩
    by_cases hxc : (x.id == c.id) = true
    · rw [if_pos hxc]
      have hce : x.id = c.id := eq_of_beq hxc
      rw [← hxi, ← hce]
    · rw [if_neg hxc]
      exact hxi
  · rw [if_neg h]
    rw [List.map_append, List.mem_append]
    exact Or.inl hi

theorem foldl_upsert_preserves_ids :
    ∀ (l t : List ChatRow) (i : Int), i ∈ t.map (fun x => x.id) →
      i ∈ (l.foldl upsertChatRow t).map (fun x => x.id) := by
  intro l
  induction l with
  | nil => intro t i hi; exact hi
  | cons c l ih =>
    intro t i hi
    simp only [List.foldl_cons]
    exact ih (upsertChatRow t c) i (upsertChatRow_preserves_ids t c i hi)

/-- C10: PostgresClient.syncChats never removes rows from the chats table:
every chat id present before the call is still present after it (chat rows
are touched only by the upsert, so a deletion is represented solely by the
deleted_at tombstone written by the upsert); the only rows it deletes are
message rows whose chat_id is in the delete-cascade set, messages outside
that set survive, and when the statement fails the transaction rolls back
and the database is unchanged. -/
theorem syncChats_preserves_chat_rows (toSync : List ChatRow) (toDelete : List Int)
    (db : ChatsDb) (r : ChatRow) (msg : MsgRow) :
    (r ∈ db.chats → r.id ∈ (dbSyncChats toSync toDelete db).1.chats.map (fun x => x.id))
    ∧ (msg ∈ db.messages → msg ∉ (dbSyncChats toSync toDelete db).1.messages →
        toDelete.contains msg.chat_id = true)
    ∧ (msg ∈ db.messages → toDelete.contains msg.chat_id = false →
        msg ∈ (dbSyncChats toSync toDelete db).1.messages)
    ∧ ((dbSyncChats toSync toDelete db).2.isSome = true →
        (dbSyncChats toSync toDelete db).1 = db) := by
  unfold dbSyncChats
  by_cases h1 : (toSync.isEmpty && toDelete.isEmpty) = true
  · rw [if_pos h1]
    exact ⟨fun hr => List.mem_map_of_mem _ hr,
      fun hm hnm => absurd hm hnm,
      fun hm _ => hm,
      by simp⟩
  · rw [if_neg h1]
    by_cases h2 : (toSync.map (fun c => c.id)).Nodup
    · rw [if_pos h2]
      refine ⟨?_, ?_, ?_, by simp⟩
      · intro hr
        exact foldl_upsert_preserves_ids toSync db.chats r.id (List.mem_map_of_mem _ hr)
      · intro hm hnm
        by_cases hc : toDelete.contains msg.chat_id = true
        · exact hc
        · exfalso
          apply hnm
          simp only [List.mem_filter]
          refine ⟨hm, ?_⟩
          simpa using hc
      · intro hm hc
        simp only [List.mem_filter]
        refine ⟨hm, ?_⟩
        simpa using hc
    · rw [if_neg h2]
      exact ⟨fun hr => List.mem_map_of_mem _ hr,
        fun hm hnm => absurd hm hnm,
        fun hm _ => hm,
        fun _ => rfl⟩

theorem syncChats_preserves_chat_rows_witness :
    (demoChatRow ∈ demoDb.chats →
      demoChatRow.id ∈ (dbSyncChats [demoChatRowUpd] [1] demoDb).1.chats.map (fun x => x.id))
    ∧ (demoMsg ∈ demoDb.messages →
        demoMsg ∉ (dbSyncChats [demoChatRowUpd] [1] demoDb).1.messages →
        ([1] : List Int).contains demoMsg.chat_id = true)
    ∧ (demoMsg ∈ demoDb.messages → ([1] : List Int).contains demoMsg.chat_id = false →
        demoMsg ∈ (dbSyncChats [demoChatRowUpd] [1] demoDb).1.messages)
    ∧ ((dbSyncChats [demoChatRowUpd] [1] demoDb).2.isSome = true →
        (dbSyncChats [demoChatRowUpd] [1] demoDb).1 = demoDb) :=
  syncChats_preserves_chat_rows [demoChatRowUpd] [1] demoDb demoChatRow demoMsg

end LlmBackend
